import Mathlib

/-!
Formal model of `src/src/native/ping_helper.c` from icecake0141/paraping.

The program sends one ICMP Echo Request and waits for the matching Echo
Reply.  We model, faithfully to the C source:

* the RFC 1071 `checksum` function (lines 34-49), at the granularity the C
  code actually works with: a list of 16-bit words plus an optional trailing
  odd byte (`unsigned short *buf`, `sum += (*(unsigned char *)buf) << 8`);
  `>> 16` and `& 0xFFFF` on unsigned ints are rendered as `/ 65536` and
  `% 65536`, and the `unsigned int` accumulator as `% 2^32`;
* the 64-byte echo request construction (lines 145-155);
* `struct timeval` deadline arithmetic: the absolute deadline (lines
  171-178) and the per-iteration remaining-time computation (lines 188-207);
* the parse-and-match pipeline applied to each received datagram (lines
  243-311), over a byte list; multi-byte fields are paired in network
  order, instantiating the implementation-defined layout of the C `short`
  accesses as big-endian, under which `ntohs`/`htons` are the identity;
* the receive loop (lines 186-313) as a function over a list of loop
  iterations, each carrying the time measured by `gettimeofday` at the top
  of the iteration and the outcome of `select`/`recvfrom`, together with
  the `close(sockfd)` bookkeeping of every exit path (lines 162-324).
-/

namespace PingHelper

/-! ## Checksum (ping_helper.c lines 34-49) -/

/-- Carry folding performed after the summation loop (lines 45-46):
`sum = (sum >> 16) + (sum & 0xFFFF); sum += (sum >> 16);`. -/
def foldTwice (s : Nat) : Nat :=
  (s / 65536 + s % 65536) + (s / 65536 + s % 65536) / 65536

/-- Final complement (lines 47-48): `result = ~sum` truncated to
`unsigned short`, i.e. `0xFFFF - (sum & 0xFFFF)` after the folds. -/
def cksumOf (s : Nat) : Nat :=
  65535 - (foldTwice s % 65536)

/-- The raw sum of the loop at lines 39-44: all 16-bit words, plus, for an
odd-length buffer, the final byte shifted left by 8. -/
def wordSum (ws : List Nat) (odd : Option Nat) : Nat :=
  ws.sum + (match odd with | some b => b * 256 | none => 0)

/-- The `checksum` function of ping_helper.c (lines 34-49), on a buffer
given as its 16-bit words plus an optional trailing odd byte.  The
accumulator is an `unsigned int`, hence the reduction `% 2^32`. -/
def checksum (ws : List Nat) (odd : Option Nat) : Nat :=
  cksumOf (wordSum ws odd % 2 ^ 32)

/-- Pair a byte list into the 16-bit words the C code reads through
`unsigned short *buf`, in network byte order, with the leftover odd byte
(if any) returned separately. -/
def toWords : List Nat → List Nat × Option Nat
  | b0 :: b1 :: rest =>
    let p := toWords rest
    ((b0 * 256 + b1) :: p.1, p.2)
  | [b] => ([], some b)
  | [] => ([], none)

/-- `checksum` applied to a raw byte buffer. -/
def checksumBytes (bs : List Nat) : Nat :=
  checksum (toWords bs).1 (toWords bs).2

/-- The 64-byte echo request of lines 145-155, viewed as its 32 16-bit
words: word 0 holds type `ICMP_ECHO = 8` and code 0, word 1 is the checksum
field (zeroed at line 154, then overwritten at line 155 with the checksum
of the whole buffer), word 2 the identifier, word 3 the sequence number,
and the 56-byte payload is zero. -/
def build_echo_request (idWord seqWord : Nat) : List Nat :=
  let base := (8 * 256 + 0) :: 0 :: idWord :: seqWord :: List.replicate 28 0
  base.set 1 (checksum base none)

/-- Multiples of 65535 in the representable range checksum to 0. -/
theorem cksum_mul65535 (k : Nat) (h1 : 1 ≤ k) (h2 : k ≤ 65537) :
    cksumOf (65535 * k) = 0 := by
  rcases le_or_lt k 65536 with hk | hk
  · have e1 : 65535 * k / 65536 = k - 1 := by omega
    have e2 : 65535 * k % 65536 = 65536 - k := by omega
    unfold cksumOf foldTwice
    rw [e1, e2]
    omega
  · have hk' : k = 65537 := by omega
    subst hk'
    decide

/-- Core verification identity: adding the computed checksum back into a
32-bit one's-complement accumulator and checksumming again yields 0. -/
theorem cksum_verify (a : Nat) (h : a < 2 ^ 32) :
    cksumOf ((a + cksumOf a) % 2 ^ 32) = 0 := by
  have key : a + cksumOf a =
      65535 * (a / 65536 + 1 + (a / 65536 + a % 65536) / 65536) := by
    unfold cksumOf foldTwice
    omega
  have hb1 : 1 ≤ a / 65536 + 1 + (a / 65536 + a % 65536) / 65536 := by omega
  have hb2 : a / 65536 + 1 + (a / 65536 + a % 65536) / 65536 ≤ 65537 := by omega
  have hlt : a + cksumOf a < 2 ^ 32 := by
    rw [key]
    omega
  rw [Nat.mod_eq_of_lt hlt, key]
  exact cksum_mul65535 _ hb1 hb2

/-- Replacing a zero element of a list by `r` raises the sum by `r`. -/
theorem sum_set_of_getD_zero :
    ∀ (ws : List Nat) (i r : Nat), i < ws.length → ws.getD i 0 = 0 →
      (ws.set i r).sum = ws.sum + r
  | [], i, r, h, _ => by simp at h
  | w :: ws, 0, r, _, h0 => by
    simp only [List.getD_cons_zero] at h0
    simp [h0, Nat.add_comm]
  | w :: ws, i + 1, r, h, h0 => by
    have ih := sum_set_of_getD_zero ws i r (by simpa using h)
      (by simpa using h0)
    simp [List.sum_cons, ih]
    omega

/-- Splitting an even-length prefix commutes with `toWords`. -/
theorem toWords_append_even :
    ∀ (bs t : List Nat), bs.length % 2 = 0 →
      toWords (bs ++ t) = ((toWords bs).1 ++ (toWords t).1, (toWords t).2)
  | [], t, _ => by simp [toWords]
  | [b], t, h => by simp at h
  | b0 :: b1 :: rest, t, h => by
    have ih := toWords_append_even rest t (by simp at h; omega)
    simp [toWords, ih]

/-! ## Timevals and the deadline tracker (ping_helper.c lines 157-207) -/

/-- A `struct timeval`: signed seconds and microseconds. -/
structure Timeval where
  sec : Int
  usec : Int
deriving DecidableEq

/-- Total value of a timeval in microseconds. -/
def toUsec (t : Timeval) : Int := t.sec * 1000000 + t.usec

/-- A normalized timeval as produced by `gettimeofday`. -/
def tvValid (t : Timeval) : Prop := 0 ≤ t.usec ∧ t.usec < 1000000

instance (t : Timeval) : Decidable (tvValid t) := by
  unfold tvValid
  infer_instance

/-- Addition of timevals with microsecond carry. -/
def tvAdd (a b : Timeval) : Timeval :=
  if a.usec + b.usec ≥ 1000000 then ⟨a.sec + b.sec + 1, a.usec + b.usec - 1000000⟩
  else ⟨a.sec + b.sec, a.usec + b.usec⟩

/-- The absolute deadline of lines 171-178: `start + timeout_ms`, computed
in integer seconds/microseconds with a single carry normalization. -/
def mkDeadline (start : Timeval) (timeout_ms : Nat) : Timeval :=
  if start.usec + ((timeout_ms % 1000 : Nat) : Int) * 1000 ≥ 1000000 then
    ⟨start.sec + ((timeout_ms / 1000 : Nat) : Int) + 1,
      start.usec + ((timeout_ms % 1000 : Nat) : Int) * 1000 - 1000000⟩
  else
    ⟨start.sec + ((timeout_ms / 1000 : Nat) : Int),
      start.usec + ((timeout_ms % 1000 : Nat) : Int) * 1000⟩

/-- Result of the remaining-time computation. -/
inductive Remaining where
  | expired
  | dur (d : Timeval)
deriving DecidableEq

/-- The remaining-time computation of lines 188-207: subtract fields,
borrow into the seconds when the microsecond difference is negative, and
report expiry when the result is `< 0`, or `0` seconds and `<= 0`
microseconds. -/
def remaining (deadline now : Timeval) : Remaining :=
  let rs := deadline.sec - now.sec
  let ru := deadline.usec - now.usec
  let rs2 := if ru < 0 then rs - 1 else rs
  let ru2 := if ru < 0 then ru + 1000000 else ru
  if rs2 < 0 ∨ (rs2 = 0 ∧ ru2 ≤ 0) then .expired else .dur ⟨rs2, ru2⟩

theorem toUsec_tvAdd (a b : Timeval) : toUsec (tvAdd a b) = toUsec a + toUsec b := by
  unfold tvAdd toUsec
  split <;> ring

theorem toUsec_mkDeadline (start : Timeval) (timeout_ms : Nat) :
    toUsec (mkDeadline start timeout_ms) = toUsec start + (timeout_ms : Int) * 1000 := by
  unfold mkDeadline toUsec
  split <;> simp <;> omega

theorem remaining_expired_iff (deadline now : Timeval)
    (hd : tvValid deadline) (hn : tvValid now) :
    remaining deadline now = .expired ↔ toUsec deadline ≤ toUsec now := by
  obtain ⟨hd1, hd2⟩ := hd
  obtain ⟨hn1, hn2⟩ := hn
  unfold remaining toUsec
  by_cases hru : deadline.usec - now.usec < 0 <;>
    simp only [hru, if_true, if_false, reduceIte] <;> split <;>
    simp_all <;> omega

theorem remaining_dur (deadline now d : Timeval)
    (hd : tvValid deadline) (hn : tvValid now)
    (h : remaining deadline now = .dur d) :
    0 ≤ d.sec ∧ 0 ≤ d.usec ∧ d.usec < 1000000 ∧
      toUsec d = toUsec deadline - toUsec now := by
  obtain ⟨ds, du⟩ := d
  obtain ⟨hd1, hd2⟩ := hd
  obtain ⟨hn1, hn2⟩ := hn
  unfold remaining at h
  simp only [toUsec]
  by_cases hru : deadline.usec - now.usec < 0 <;>
    simp only [hru, if_true, if_false, reduceIte] at h <;> split at h <;>
    simp only [Remaining.dur.injEq, Timeval.mk.injEq, reduceCtorEq] at h <;>
    omega

/-! ## Datagram parsing and reply matching (ping_helper.c lines 243-311) -/

/-- Reasons a received datagram fails validation (spec section 4.2). -/
inductive Reject where
  | shortPacket
  | badIpHeaderLength
  | wrongIpVersion
  | notIcmp
deriving DecidableEq

/-- The fields extracted from a validated datagram. -/
structure ParsedReply where
  icmp_type : Nat
  icmp_code : Nat
  icmp_id : Nat
  icmp_seq : Nat
  ttl : Nat
deriving DecidableEq

/-- The validation/extraction chain of lines 243-277 plus the field reads
of lines 280-311, over the received byte list (`recv_len` is the list
length).  `ip_hl` is the low nibble of byte 0, `ip_v` its high nibble,
`ip_p` byte 9, `ip_ttl` byte 8; the ICMP header sits at offset
`ip_hl * 4`, with the 16-bit identifier and sequence in network order
(`ntohs` is the identity in this big-endian instantiation). -/
def parse_reply (bs : List Nat) : Except Reject ParsedReply :=
  if bs.length < 20 then .error .shortPacket
  else if (bs.getD 0 0 % 16) * 4 < 20 ∨ 60 < (bs.getD 0 0 % 16) * 4 then
    .error .badIpHeaderLength
  else if bs.getD 0 0 / 16 ≠ 4 then .error .wrongIpVersion
  else if bs.getD 9 0 ≠ 1 then .error .notIcmp
  else if bs.length < (bs.getD 0 0 % 16) * 4 + 8 then .error .shortPacket
  else
    .ok
      { icmp_type := bs.getD ((bs.getD 0 0 % 16) * 4) 0
        icmp_code := bs.getD ((bs.getD 0 0 % 16) * 4 + 1) 0
        icmp_id := bs.getD ((bs.getD 0 0 % 16) * 4 + 4) 0 * 256 +
          bs.getD ((bs.getD 0 0 % 16) * 4 + 5) 0
        icmp_seq := bs.getD ((bs.getD 0 0 % 16) * 4 + 6) 0 * 256 +
          bs.getD ((bs.getD 0 0 % 16) * 4 + 7) 0
        ttl := bs.getD 8 0 }

/-- The byte offsets of `recv_buf` that the parse-and-match logic reads on
a given input, following the same guard structure as `parse_reply`. -/
def parseReads (bs : List Nat) : List Nat :=
  if bs.length < 20 then []
  else if (bs.getD 0 0 % 16) * 4 < 20 ∨ 60 < (bs.getD 0 0 % 16) * 4 then [0]
  else if bs.getD 0 0 / 16 ≠ 4 then [0]
  else if bs.getD 9 0 ≠ 1 then [0, 9]
  else if bs.length < (bs.getD 0 0 % 16) * 4 + 8 then [0, 9]
  else
    [0, 8, 9, (bs.getD 0 0 % 16) * 4, (bs.getD 0 0 % 16) * 4 + 1,
      (bs.getD 0 0 % 16) * 4 + 4, (bs.getD 0 0 % 16) * 4 + 5,
      (bs.getD 0 0 % 16) * 4 + 6, (bs.getD 0 0 % 16) * 4 + 7]

/-- Verdict on one received datagram. -/
inductive PacketDecision where
  | discard
  | accept (ttl : Nat)
deriving DecidableEq

/-- The per-datagram decision of lines 243-311: parse, then require
`icmp_type == ICMP_ECHOREPLY (0)`, `icmp_code == 0`, identifier and
sequence equal to the expected values, and the `recvfrom` source address
equal to the resolved target address; on success the reply TTL is read. -/
def handleDatagram (expId expSeq expAddr : Nat) (bs : List Nat) (src : Nat) :
    PacketDecision :=
  match parse_reply bs with
  | .error _ => .discard
  | .ok p =>
    if p.icmp_type ≠ 0 then .discard
    else if p.icmp_code ≠ 0 then .discard
    else if p.icmp_id ≠ expId then .discard
    else if p.icmp_seq ≠ expSeq then .discard
    else if src ≠ expAddr then .discard
    else .accept p.ttl

/-! ## The receive loop and the probe session (ping_helper.c lines 111-324) -/

/-- Outcome of one `select`/`recvfrom` round, supplied by the environment. -/
inductive SelectRes where
  | err
  | timeout
  | recvErr
  | ready (bs : List Nat) (src : Nat)
deriving DecidableEq

/-- One loop iteration's clock readings: `now` is the `gettimeofday` at the
top of the iteration (line 190), `tEnd` the one taken at line 310 if the
iteration's datagram matches. -/
structure Event where
  now : Timeval
  tEnd : Timeval
deriving DecidableEq

/-- Terminal outcome of the receive loop. -/
inductive Outcome where
  | timedOut (t : Timeval)
  | waitFailed
  | recvFailed
  | matched (ttl : Nat) (tEnd : Timeval)
  | outOfEvents
deriving DecidableEq

/-- The receive loop of lines 186-313 over a list of iteration events,
also counting the `close(sockfd)` calls performed inside the loop.  A
`select` timeout is modelled as the full remaining duration having
elapsed; `outOfEvents` is the model artifact of running off the supplied
event list. -/
def runLoop (deadline : Timeval) (expId expSeq expAddr : Nat) :
    List (Event × SelectRes) → Outcome × Nat
  | [] => (.outOfEvents, 0)
  | (e, sel) :: rest =>
    match remaining deadline e.now with
    | .expired => (.timedOut e.now, 1)
    | .dur d =>
      match sel with
      | .err => (.waitFailed, 1)
      | .timeout => (.timedOut (tvAdd e.now d), 1)
      | .recvErr => (.recvFailed, 1)
      | .ready bs src =>
        match handleDatagram expId expSeq expAddr bs src with
        | .discard => runLoop deadline expId expSeq expAddr rest
        | .accept ttl => (.matched ttl e.tEnd, 0)

/-- The `(now, duration)` pairs handed to `select` (line 214) before the
loop exits, each computed by `remaining` against the one fixed deadline. -/
def armedWaits (deadline : Timeval) (expId expSeq expAddr : Nat) :
    List (Event × SelectRes) → List (Timeval × Timeval)
  | [] => []
  | (e, sel) :: rest =>
    match remaining deadline e.now with
    | .expired => []
    | .dur d =>
      (e.now, d) ::
        match sel with
        | .err => []
        | .timeout => []
        | .recvErr => []
        | .ready bs src =>
          match handleDatagram expId expSeq expAddr bs src with
          | .discard => armedWaits deadline expId expSeq expAddr rest
          | .accept _ => []

/-- Terminal outcome of the probe session after socket creation. -/
inductive SessOutcome where
  | connectFailed
  | sendFailed
  | success (ttl : Nat)
  | timedOut
  | waitFailed
  | recvFailed
  | incomplete
deriving DecidableEq

/-- The post-socket-creation session (lines 122-324): connect, send, then
the receive loop; the second component counts `close(sockfd)` calls on the
taken path (lines 125, 166, 204, 217, 224, 238, 322). -/
def session (connectOk sendOk : Bool) (deadline : Timeval)
    (expId expSeq expAddr : Nat) (evs : List (Event × SelectRes)) :
    SessOutcome × Nat :=
  if !connectOk then (.connectFailed, 1)
  else if !sendOk then (.sendFailed, 1)
  else
    match runLoop deadline expId expSeq expAddr evs with
    | (.matched ttl _, n) => (.success ttl, n + 1)
    | (.timedOut _, n) => (.timedOut, n)
    | (.waitFailed, n) => (.waitFailed, n)
    | (.recvFailed, n) => (.recvFailed, n)
    | (.outOfEvents, n) => (.incomplete, n)

/-- Process exit code of a loop outcome (lines 206, 219, 226, 240, 324);
`outOfEvents` is a model artifact with no exit code. -/
def outcomeCode : Outcome → Option Nat
  | .timedOut _ => some 7
  | .waitFailed => some 6
  | .recvFailed => some 8
  | .matched _ _ => some 0
  | .outOfEvents => none

/-- The failure kinds distinguished by the spec's error taxonomy. -/
inductive FailKind where
  | badArguments
  | resolveFailed
  | socketCreateFailed
  | sendFailed
  | waitFailed
  | receiveFailed
  | timedOut
deriving DecidableEq

/-- Exit codes used for each failure kind: bad arguments return 1 (usage,
line 54) or 2 (invalid values, lines 64-93), resolution failure 3 (line
108), raw-socket creation failure 4 (line 117), send failure 5 (line 168),
wait failure 6 (line 219), receive failure 8 (line 240), timeout 7 (lines
206, 226). -/
def exitCodesOf : FailKind → List Nat
  | .badArguments => [1, 2]
  | .resolveFailed => [3]
  | .socketCreateFailed => [4]
  | .sendFailed => [5]
  | .waitFailed => [6]
  | .receiveFailed => [8]
  | .timedOut => [7]

/-- All seven failure kinds. -/
def allFailKinds : List FailKind :=
  [.badArguments, .resolveFailed, .socketCreateFailed, .sendFailed,
    .waitFailed, .receiveFailed, .timedOut]

/-! ## Supporting lemmas -/

/-- The checksum value always fits in 16 bits. -/
theorem checksum_le (ws : List Nat) (odd : Option Nat) : checksum ws odd ≤ 65535 := by
  unfold checksum cksumOf
  omega

/-- Writing the computed checksum into a zeroed slot makes the buffer
checksum to 0. -/
theorem checksum_fill (ws : List Nat) (odd : Option Nat) (i : Nat)
    (h1 : i < ws.length) (h2 : ws.getD i 0 = 0) :
    checksum (ws.set i (checksum ws odd)) odd = 0 := by
  have hsum : wordSum (ws.set i (checksum ws odd)) odd
      = wordSum ws odd + checksum ws odd := by
    unfold wordSum
    rw [sum_set_of_getD_zero ws i _ h1 h2]
    rcases odd with _ | b
    · simp
    · simp
      omega
  have hr : checksum ws odd % 2 ^ 32 = checksum ws odd :=
    Nat.mod_eq_of_lt (lt_of_le_of_lt (checksum_le ws odd) (by norm_num))
  have ha : wordSum ws odd % 2 ^ 32 < 2 ^ 32 := Nat.mod_lt _ (by norm_num)
  show cksumOf (wordSum (ws.set i (checksum ws odd)) odd % 2 ^ 32) = 0
  rw [hsum, Nat.add_mod, hr]
  exact cksum_verify _ ha

/-! ## Claim theorems -/

/-- C4: for every pair of valid timevals, the remaining-time computation
yields `expired` exactly when `now >= deadline`, and otherwise yields
`deadline - now` with the microsecond borrow handled and neither field of
the duration handed to `select` negative. -/
theorem remaining_time_correct (deadline now : Timeval)
    (hd : tvValid deadline) (hn : tvValid now) :
    (remaining deadline now = .expired ↔ toUsec deadline ≤ toUsec now) ∧
    (∀ d, remaining deadline now = .dur d →
      0 ≤ d.sec ∧ 0 ≤ d.usec ∧ toUsec d = toUsec deadline - toUsec now) :=
  ⟨remaining_expired_iff deadline now hd hn, fun d h => by
    obtain ⟨h1, h2, _, h4⟩ := remaining_dur deadline now d hd hn h
    exact ⟨h1, h2, h4⟩⟩

/-- Witness for C4 at a concrete borrow-requiring input. -/
theorem remaining_time_correct_witness :
    (remaining ⟨1, 0⟩ ⟨0, 999999⟩ = .expired ↔
      toUsec ⟨1, 0⟩ ≤ toUsec ⟨0, 999999⟩) ∧
    (∀ d, remaining ⟨1, 0⟩ ⟨0, 999999⟩ = .dur d →
      0 ≤ d.sec ∧ 0 ≤ d.usec ∧ toUsec d = toUsec ⟨1, 0⟩ - toUsec ⟨0, 999999⟩) :=
  remaining_time_correct ⟨1, 0⟩ ⟨0, 999999⟩ (by decide) (by decide)

/-- C6: filling the checksum field of any word buffer with its computed
checksum makes the whole buffer checksum to 0; in particular the 64-byte
echo request, once its checksum is written back at line 155, satisfies
`checksum(packet) == 0`. -/
theorem checksum_verifies_zero (ws : List Nat) (odd : Option Nat) (i : Nat)
    (h1 : i < ws.length) (h2 : ws.getD i 0 = 0) :
    checksum (ws.set i (checksum ws odd)) odd = 0 ∧
    ∀ idWord seqWord : Nat, checksum (build_echo_request idWord seqWord) none = 0 := by
  refine ⟨checksum_fill ws odd i h1 h2, fun idWord seqWord => ?_⟩
  exact checksum_fill ((8 * 256 + 0) :: 0 :: idWord :: seqWord :: List.replicate 28 0)
    none 1 (by simp) rfl

/-- Witness for C6 at a concrete buffer. -/
theorem checksum_verifies_zero_witness :
    checksum ([5, 0, 7].set 1 (checksum [5, 0, 7] none)) none = 0 ∧
    ∀ idWord seqWord : Nat, checksum (build_echo_request idWord seqWord) none = 0 :=
  checksum_verifies_zero [5, 0, 7] none 1 (by decide) (by decide)

/-- C7: for a buffer of odd length, the final byte is treated as the high
byte of a padded 16-bit word: it contributes `byte * 256` to the word sum,
in the same (network) byte order as the full 16-bit words are paired, so
the checksum equals that of the buffer padded with a trailing zero byte. -/
theorem checksum_odd_high_byte (bs : List Nat) (b : Nat) (h : bs.length % 2 = 0) :
    (toWords (bs ++ [b])).2 = some b ∧
    wordSum (toWords (bs ++ [b])).1 (toWords (bs ++ [b])).2
      = wordSum (toWords bs).1 none + b * 256 ∧
    checksumBytes (bs ++ [b]) = checksumBytes (bs ++ [b, 0]) := by
  have h1 := toWords_append_even bs [b] h
  have h2 := toWords_append_even bs [b, 0] h
  simp only [toWords] at h1 h2
  refine ⟨?_, ?_, ?_⟩
  · rw [h1]
  · rw [h1]
    simp [wordSum]
  · unfold checksumBytes checksum
    rw [h1, h2]
    simp [wordSum]

/-- Witness for C7 at a concrete odd buffer. -/
theorem checksum_odd_high_byte_witness :
    (toWords ([1, 2] ++ [3])).2 = some 3 ∧
    wordSum (toWords ([1, 2] ++ [3])).1 (toWords ([1, 2] ++ [3])).2
      = wordSum (toWords [1, 2]).1 none + 3 * 256 ∧
    checksumBytes ([1, 2] ++ [3]) = checksumBytes ([1, 2] ++ [3, 0]) :=
  checksum_odd_high_byte [1, 2] 3 (by decide)

/-- C8: the seven failure kinds terminate the process with pairwise
disjoint exit codes, and the enumeration covers every kind. -/
theorem exit_codes_distinct :
    List.Pairwise (fun a b => ∀ c ∈ exitCodesOf a, c ∉ exitCodesOf b) allFailKinds ∧
    allFailKinds.Nodup ∧ allFailKinds.length = 7 := by decide

/-- A datagram that fails parsing is discarded. -/
theorem handleDatagram_error (eid es ea src : Nat) (bs : List Nat) (r : Reject)
    (h : parse_reply bs = .error r) :
    handleDatagram eid es ea bs src = .discard := by
  unfold handleDatagram
  rw [h]

/-- A discarded datagram makes the loop re-enter on the remaining events. -/
theorem runLoop_skip (dl : Timeval) (eid es ea : Nat) (e : Event)
    (bs : List Nat) (src : Nat) (rest : List (Event × SelectRes)) (d : Timeval)
    (hrem : remaining dl e.now = .dur d)
    (hdis : handleDatagram eid es ea bs src = .discard) :
    runLoop dl eid es ea ((e, .ready bs src) :: rest) = runLoop dl eid es ea rest := by
  simp only [runLoop, hrem, hdis]

/-- An accepted datagram terminates the loop with its TTL and end time. -/
theorem runLoop_accept (dl : Timeval) (eid es ea : Nat) (e : Event)
    (bs : List Nat) (src : Nat) (rest : List (Event × SelectRes)) (d : Timeval)
    (ttl : Nat) (hrem : remaining dl e.now = .dur d)
    (hacc : handleDatagram eid es ea bs src = .accept ttl) :
    runLoop dl eid es ea ((e, .ready bs src) :: rest) = (.matched ttl e.tEnd, 0) := by
  simp only [runLoop, hrem, hacc]

/-- C5: parsing rejects a received buffer exactly under the listed
conditions, in order — length below 20, IP header length (low nibble of
byte 0 times 4) outside [20,60], IP version (high nibble of byte 0) not 4,
protocol byte not 1, length below header length + 8 — and otherwise
extracts the ICMP type, code, identifier, sequence and the TTL; rejection
discards the datagram and the loop re-enters instead of aborting. -/
theorem parse_reject_conditions (bs : List Nat) :
    (parse_reply bs = .error .shortPacket ↔
      bs.length < 20 ∨
        (20 ≤ (bs.getD 0 0 % 16) * 4 ∧ (bs.getD 0 0 % 16) * 4 ≤ 60 ∧
          bs.getD 0 0 / 16 = 4 ∧ bs.getD 9 0 = 1 ∧
          bs.length < (bs.getD 0 0 % 16) * 4 + 8)) ∧
    (parse_reply bs = .error .badIpHeaderLength ↔
      20 ≤ bs.length ∧
        ((bs.getD 0 0 % 16) * 4 < 20 ∨ 60 < (bs.getD 0 0 % 16) * 4)) ∧
    (parse_reply bs = .error .wrongIpVersion ↔
      20 ≤ bs.length ∧ 20 ≤ (bs.getD 0 0 % 16) * 4 ∧
        (bs.getD 0 0 % 16) * 4 ≤ 60 ∧ bs.getD 0 0 / 16 ≠ 4) ∧
    (parse_reply bs = .error .notIcmp ↔
      20 ≤ bs.length ∧ 20 ≤ (bs.getD 0 0 % 16) * 4 ∧
        (bs.getD 0 0 % 16) * 4 ≤ 60 ∧ bs.getD 0 0 / 16 = 4 ∧ bs.getD 9 0 ≠ 1) ∧
    (∀ p, parse_reply bs = .ok p →
      20 ≤ bs.length ∧ 20 ≤ (bs.getD 0 0 % 16) * 4 ∧
        (bs.getD 0 0 % 16) * 4 ≤ 60 ∧ bs.getD 0 0 / 16 = 4 ∧ bs.getD 9 0 = 1 ∧
        (bs.getD 0 0 % 16) * 4 + 8 ≤ bs.length ∧
        p.icmp_type = bs.getD ((bs.getD 0 0 % 16) * 4) 0 ∧
        p.icmp_code = bs.getD ((bs.getD 0 0 % 16) * 4 + 1) 0 ∧
        p.icmp_id = bs.getD ((bs.getD 0 0 % 16) * 4 + 4) 0 * 256 +
          bs.getD ((bs.getD 0 0 % 16) * 4 + 5) 0 ∧
        p.icmp_seq = bs.getD ((bs.getD 0 0 % 16) * 4 + 6) 0 * 256 +
          bs.getD ((bs.getD 0 0 % 16) * 4 + 7) 0 ∧
        p.ttl = bs.getD 8 0) ∧
    (∀ r eid es ea src, parse_reply bs = .error r →
      handleDatagram eid es ea bs src = .discard) ∧
    (∀ r eid es ea src dl (e : Event) rest d,
      parse_reply bs = .error r → remaining dl e.now = .dur d →
      runLoop dl eid es ea ((e, .ready bs src) :: rest) = runLoop dl eid es ea rest) := by
  refine ⟨?_, ?_, ?_, ?_, ?_,
    fun r eid es ea src h => handleDatagram_error eid es ea src bs r h,
    fun r eid es ea src dl e rest d h hrem =>
      runLoop_skip dl eid es ea e bs src rest d hrem
        (handleDatagram_error eid es ea src bs r h)⟩ <;>
  · unfold parse_reply
    split_ifs <;> simp_all <;> omega

/-- Witness for C5 at the empty buffer. -/
theorem parse_reject_conditions_witness :
    parse_reply [] = .error .shortPacket ↔
      ([] : List Nat).length < 20 ∨
        (20 ≤ (([] : List Nat).getD 0 0 % 16) * 4 ∧
          (([] : List Nat).getD 0 0 % 16) * 4 ≤ 60 ∧
          ([] : List Nat).getD 0 0 / 16 = 4 ∧ ([] : List Nat).getD 9 0 = 1 ∧
          ([] : List Nat).length < (([] : List Nat).getD 0 0 % 16) * 4 + 8) :=
  (parse_reject_conditions []).1

/-- A well-formed 28-byte echo reply datagram used as a concrete witness
input: minimal IPv4 header (version 4, header length 20, TTL 64,
protocol 1) followed by an 8-byte ICMP header with type 0, code 0,
identifier 4660 and sequence 7. -/
def samplePacket : List Nat :=
  [69, 0, 0, 0, 0, 0, 0, 0, 64, 1, 0, 0, 0, 0, 0, 0, 0, 0, 0, 0,
    0, 0, 0, 0, 18, 52, 0, 7]

/-- C1: a datagram that parses is accepted — terminating the wait with the
reply TTL recorded — exactly when the ICMP type is Echo Reply (0), the
code is 0, the identifier equals the process id masked to 16 bits, the
sequence equals the requested sequence, and the sender address equals the
resolved target; on any single mismatch it is discarded and the loop
re-enters on the remaining events instead of terminating. -/
theorem reply_match_exact (pid expSeq expAddr : Nat) (bs : List Nat) (src : Nat)
    (p : ParsedReply) (hp : parse_reply bs = .ok p) :
    (handleDatagram (pid % 65536) expSeq expAddr bs src = .accept p.ttl ↔
      (p.icmp_type = 0 ∧ p.icmp_code = 0 ∧ p.icmp_id = pid % 65536 ∧
        p.icmp_seq = expSeq ∧ src = expAddr)) ∧
    (∀ t, handleDatagram (pid % 65536) expSeq expAddr bs src = .accept t →
      t = p.ttl) ∧
    (¬(p.icmp_type = 0 ∧ p.icmp_code = 0 ∧ p.icmp_id = pid % 65536 ∧
        p.icmp_seq = expSeq ∧ src = expAddr) →
      handleDatagram (pid % 65536) expSeq expAddr bs src = .discard) ∧
    (∀ dl (e : Event) rest d, remaining dl e.now = .dur d →
      ((p.icmp_type = 0 ∧ p.icmp_code = 0 ∧ p.icmp_id = pid % 65536 ∧
          p.icmp_seq = expSeq ∧ src = expAddr) →
        runLoop dl (pid % 65536) expSeq expAddr ((e, .ready bs src) :: rest)
          = (.matched p.ttl e.tEnd, 0)) ∧
      (¬(p.icmp_type = 0 ∧ p.icmp_code = 0 ∧ p.icmp_id = pid % 65536 ∧
          p.icmp_seq = expSeq ∧ src = expAddr) →
        runLoop dl (pid % 65536) expSeq expAddr ((e, .ready bs src) :: rest)
          = runLoop dl (pid % 65536) expSeq expAddr rest)) := by
  have key : handleDatagram (pid % 65536) expSeq expAddr bs src
      = if p.icmp_type = 0 ∧ p.icmp_code = 0 ∧ p.icmp_id = pid % 65536 ∧
          p.icmp_seq = expSeq ∧ src = expAddr
        then .accept p.ttl else .discard := by
    unfold handleDatagram
    rw [hp]
    split_ifs <;> simp_all
  refine ⟨?_, ?_, ?_, ?_⟩
  · rw [key]
    split_ifs with hc <;> simp [hc]
  · intro t ht
    rw [key] at ht
    split_ifs at ht with hc
    simp only [PacketDecision.accept.injEq] at ht
    exact ht.symm
  · intro hnc
    rw [key, if_neg hnc]
  · intro dl e rest d hrem
    constructor
    · intro hc
      exact runLoop_accept dl _ _ _ e bs src rest d p.ttl hrem
        (by rw [key, if_pos hc])
    · intro hnc
      exact runLoop_skip dl _ _ _ e bs src rest d hrem
        (by rw [key, if_neg hnc])

/-- Witness for C1: the sample packet is accepted with its TTL. -/
theorem reply_match_exact_witness :
    handleDatagram (4660 % 65536) 7 11 samplePacket 11 = .accept 64 :=
  ((reply_match_exact 4660 7 11 samplePacket 11 ⟨0, 0, 4660, 7, 64⟩
    rfl).1).mpr (by decide)

/-- C10: every byte offset the parse-and-match logic reads is below the
received length (each read is guarded by a prior length check), and the
parse result depends only on the bytes at those offsets — parsing is a
total function of the received datagram. -/
theorem parse_reads_in_bounds (bs : List Nat) (hlen : bs.length ≤ 1024) :
    (∀ o ∈ parseReads bs, o < bs.length) ∧
    (∀ bs' : List Nat, bs'.length = bs.length →
      (∀ o ∈ parseReads bs, bs.getD o 0 = bs'.getD o 0) →
      parse_reply bs = parse_reply bs') := by
  constructor
  · unfold parseReads
    split_ifs with h1 h2 h3 h4 h5 <;> intro o ho <;>
      simp only [List.mem_cons, List.not_mem_nil, or_false] at ho <;>
      omega
  · intro bs' hL hagree
    by_cases h1 : bs.length < 20
    · have h1' : bs'.length < 20 := by omega
      unfold parse_reply
      rw [if_pos h1, if_pos h1']
    · have h1' : ¬bs'.length < 20 := by omega
      have m0 : (0 : Nat) ∈ parseReads bs := by
        unfold parseReads
        rw [if_neg h1]
        split_ifs <;> simp
      have h0 := hagree 0 m0
      unfold parse_reply
      rw [if_neg h1, if_neg h1']
      by_cases h2 : (bs.getD 0 0 % 16) * 4 < 20 ∨ 60 < (bs.getD 0 0 % 16) * 4
      · have h2' : (bs'.getD 0 0 % 16) * 4 < 20 ∨ 60 < (bs'.getD 0 0 % 16) * 4 := by
          rw [← h0]; exact h2
        rw [if_pos h2, if_pos h2']
      · have h2' : ¬((bs'.getD 0 0 % 16) * 4 < 20 ∨ 60 < (bs'.getD 0 0 % 16) * 4) := by
          rw [← h0]; exact h2
        rw [if_neg h2, if_neg h2']
        by_cases h3 : bs.getD 0 0 / 16 ≠ 4
        · have h3' : bs'.getD 0 0 / 16 ≠ 4 := by rw [← h0]; exact h3
          rw [if_pos h3, if_pos h3']
        · have h3' : ¬bs'.getD 0 0 / 16 ≠ 4 := by rw [← h0]; exact h3
          have m9 : (9 : Nat) ∈ parseReads bs := by
            unfold parseReads
            rw [if_neg h1, if_neg h2, if_neg h3]
            split_ifs <;> simp
          have h9 := hagree 9 m9
          rw [if_neg h3, if_neg h3']
          by_cases h4 : bs.getD 9 0 ≠ 1
          · have h4' : bs'.getD 9 0 ≠ 1 := by rw [← h9]; exact h4
            rw [if_pos h4, if_pos h4']
          · have h4' : ¬bs'.getD 9 0 ≠ 1 := by rw [← h9]; exact h4
            rw [if_neg h4, if_neg h4']
            by_cases h5 : bs.length < (bs.getD 0 0 % 16) * 4 + 8
            · have h5' : bs'.length < (bs'.getD 0 0 % 16) * 4 + 8 := by
                rw [← h0]; omega
              rw [if_pos h5, if_pos h5']
            · have h5' : ¬bs'.length < (bs'.getD 0 0 % 16) * 4 + 8 := by
                rw [← h0]; omega
              have mok : parseReads bs = [0, 8, 9, (bs.getD 0 0 % 16) * 4,
                  (bs.getD 0 0 % 16) * 4 + 1, (bs.getD 0 0 % 16) * 4 + 4,
                  (bs.getD 0 0 % 16) * 4 + 5, (bs.getD 0 0 % 16) * 4 + 6,
                  (bs.getD 0 0 % 16) * 4 + 7] := by
                unfold parseReads
                rw [if_neg h1, if_neg h2, if_neg h3, if_neg h4, if_neg h5]
              rw [if_neg h5, if_neg h5']
              have g8 := hagree 8 (by rw [mok]; simp)
              have g1 := hagree ((bs.getD 0 0 % 16) * 4) (by rw [mok]; simp)
              have g2 := hagree ((bs.getD 0 0 % 16) * 4 + 1) (by rw [mok]; simp)
              have g3 := hagree ((bs.getD 0 0 % 16) * 4 + 4) (by rw [mok]; simp)
              have g4 := hagree ((bs.getD 0 0 % 16) * 4 + 5) (by rw [mok]; simp)
              have g5 := hagree ((bs.getD 0 0 % 16) * 4 + 6) (by rw [mok]; simp)
              have g6 := hagree ((bs.getD 0 0 % 16) * 4 + 7) (by rw [mok]; simp)
              simp only [Except.ok.injEq, ParsedReply.mk.injEq]
              rw [← h0]
              exact ⟨g1, g2, by rw [g3, g4], by rw [g5, g6], g8⟩

/-- Witness for C10 at the sample packet. -/
theorem parse_reads_in_bounds_witness :
    (∀ o ∈ parseReads samplePacket, o < samplePacket.length) ∧
    (∀ bs' : List Nat, bs'.length = samplePacket.length →
      (∀ o ∈ parseReads samplePacket, samplePacket.getD o 0 = bs'.getD o 0) →
      parse_reply samplePacket = parse_reply bs') :=
  parse_reads_in_bounds samplePacket (by decide)

/-- A valid start time yields a valid (normalized) deadline. -/
theorem tvValid_mkDeadline (start : Timeval) (timeout_ms : Nat)
    (h : tvValid start) : tvValid (mkDeadline start timeout_ms) := by
  obtain ⟨h1, h2⟩ := h
  have hm : (timeout_ms % 1000 : Nat) < 1000 := Nat.mod_lt _ (by norm_num)
  unfold tvValid mkDeadline
  split <;> constructor <;> simp <;> omega

/-- The loop's close count is 1 on every terminal path and 0 on a matched
break (the epilogue closes) or on model fuel exhaustion. -/
theorem runLoop_close_count (dl : Timeval) (eid es ea : Nat) :
    ∀ evs : List (Event × SelectRes),
      (runLoop dl eid es ea evs).2
        = match (runLoop dl eid es ea evs).1 with
          | .matched _ _ => 0
          | .outOfEvents => 0
          | _ => 1
  | [] => rfl
  | (e, sel) :: rest => by
    have ih := runLoop_close_count dl eid es ea rest
    cases hrem : remaining dl e.now with
    | expired => simp only [runLoop, hrem]
    | dur d =>
      cases sel with
      | err => simp only [runLoop, hrem]
      | timeout => simp only [runLoop, hrem]
      | recvErr => simp only [runLoop, hrem]
      | ready bs src =>
        cases hhd : handleDatagram eid es ea bs src with
        | discard =>
          simp only [runLoop, hrem, hhd]
          exact ih
        | accept ttl => simp only [runLoop, hrem, hhd]

/-- If no event matches, no wait/receive errors occur, and some event
forces an exit (a measured time at or past the deadline, or a `select`
timeout), the loop ends in `timedOut` at a time between the deadline and
the deadline plus the clock-measurement slack `eps`. -/
theorem runLoop_timeout_bounds (dl : Timeval) (eid es ea : Nat) (eps : Int)
    (hdl : tvValid dl) (heps : 0 ≤ eps) :
    ∀ evs : List (Event × SelectRes),
      (∀ ev ∈ evs, tvValid ev.1.now) →
      (∀ ev ∈ evs, ∀ bs src, ev.2 = .ready bs src →
        handleDatagram eid es ea bs src = .discard) →
      (∀ ev ∈ evs, ev.2 ≠ .err ∧ ev.2 ≠ .recvErr) →
      (∃ ev ∈ evs, toUsec dl ≤ toUsec ev.1.now ∨ ev.2 = .timeout) →
      (∀ ev ∈ evs, toUsec ev.1.now ≤ toUsec dl + eps) →
      ∃ t, (runLoop dl eid es ea evs).1 = .timedOut t ∧
        toUsec dl ≤ toUsec t ∧ toUsec t ≤ toUsec dl + eps
  | [] => by
    intro _ _ _ hexit _
    rcases hexit with ⟨ev, hev, _⟩
    simp at hev
  | (e, sel) :: rest => by
    intro hvalid hnomatch hnoerr hexit hbound
    have hve : tvValid e.now := hvalid (e, sel) (by simp)
    cases hrem : remaining dl e.now with
    | expired =>
      refine ⟨e.now, ?_, ?_, ?_⟩
      · simp only [runLoop, hrem]
      · exact (remaining_expired_iff dl e.now hdl hve).mp hrem
      · exact hbound (e, sel) (by simp)
    | dur d =>
      have hnotexp : ¬toUsec dl ≤ toUsec e.now := by
        intro hle
        have hexpeq := (remaining_expired_iff dl e.now hdl hve).mpr hle
        rw [hexpeq] at hrem
        simp at hrem
      cases sel with
      | err => exact absurd rfl (hnoerr (e, .err) (by simp)).1
      | recvErr => exact absurd rfl (hnoerr (e, .recvErr) (by simp)).2
      | timeout =>
        have hd := remaining_dur dl e.now d hdl hve hrem
        refine ⟨tvAdd e.now d, ?_, ?_, ?_⟩
        · simp only [runLoop, hrem]
        · rw [toUsec_tvAdd]
          omega
        · rw [toUsec_tvAdd]
          omega
      | ready bs src =>
        have hdis := hnomatch (e, .ready bs src) (by simp) bs src rfl
        rw [runLoop_skip dl eid es ea e bs src rest d hrem hdis]
        apply runLoop_timeout_bounds dl eid es ea eps hdl heps rest
        · intro ev hev
          exact hvalid ev (by simp [hev])
        · intro ev hev
          exact hnomatch ev (by simp [hev])
        · intro ev hev
          exact hnoerr ev (by simp [hev])
        · rcases hexit with ⟨ev, hev, hcase⟩
          rcases List.mem_cons.mp hev with heq | hmem
          · subst heq
            rcases hcase with hc | hc
            · exact absurd hc hnotexp
            · simp at hc
          · exact ⟨ev, hmem, hcase⟩
        · intro ev hev
          exact hbound ev (by simp [hev])

/-- Every wait armed before the loop exits sums with its measured start
time to exactly the fixed deadline. -/
theorem armedWaits_fixed (dl : Timeval) (eid es ea : Nat) (hdl : tvValid dl) :
    ∀ evs : List (Event × SelectRes), (∀ ev ∈ evs, tvValid ev.1.now) →
      ∀ p ∈ armedWaits dl eid es ea evs, toUsec p.1 + toUsec p.2 = toUsec dl
  | [] => by
    intro _ p hp
    simp [armedWaits] at hp
  | (e, sel) :: rest => by
    intro hvalid p hp
    have hve : tvValid e.now := hvalid (e, sel) (by simp)
    cases hrem : remaining dl e.now with
    | expired =>
      simp only [armedWaits, hrem] at hp
      simp at hp
    | dur d =>
      have hd := remaining_dur dl e.now d hdl hve hrem
      have hhead : toUsec (e.now, d).1 + toUsec (e.now, d).2 = toUsec dl := by
        show toUsec e.now + toUsec d = toUsec dl
        omega
      cases sel with
      | err =>
        simp only [armedWaits, hrem, List.mem_cons] at hp
        rcases hp with rfl | hp
        · exact hhead
        · simp at hp
      | timeout =>
        simp only [armedWaits, hrem, List.mem_cons] at hp
        rcases hp with rfl | hp
        · exact hhead
        · simp at hp
      | recvErr =>
        simp only [armedWaits, hrem, List.mem_cons] at hp
        rcases hp with rfl | hp
        · exact hhead
        · simp at hp
      | ready bs src =>
        cases hhd : handleDatagram eid es ea bs src with
        | accept ttl =>
          simp only [armedWaits, hrem, hhd, List.mem_cons] at hp
          rcases hp with rfl | hp
          · exact hhead
          · simp at hp
        | discard =>
          simp only [armedWaits, hrem, hhd, List.mem_cons] at hp
          rcases hp with rfl | hp
          · exact hhead
          · exact armedWaits_fixed dl eid es ea hdl rest
              (fun ev hev => hvalid ev (by simp [hev])) p hp

/-- C2: with no matching reply and no wait/receive failure, the loop
terminates in the timeout state with exit code 7, never before
`start + timeout_ms`, and past it by at most the clock-measurement slack
`eps` (the model grants a `select` timeout exactly the remaining
duration). -/
theorem timeout_terminates_after_deadline (start : Timeval) (timeout_ms : Nat)
    (eid es ea : Nat) (evs : List (Event × SelectRes)) (eps : Int)
    (hstart : tvValid start) (heps : 0 ≤ eps)
    (hvalid : ∀ ev ∈ evs, tvValid ev.1.now)
    (hnomatch : ∀ ev ∈ evs, ∀ bs src, ev.2 = .ready bs src →
      handleDatagram eid es ea bs src = .discard)
    (hnoerr : ∀ ev ∈ evs, ev.2 ≠ .err ∧ ev.2 ≠ .recvErr)
    (hexit : ∃ ev ∈ evs, toUsec (mkDeadline start timeout_ms) ≤ toUsec ev.1.now ∨
      ev.2 = .timeout)
    (hbound : ∀ ev ∈ evs,
      toUsec ev.1.now ≤ toUsec (mkDeadline start timeout_ms) + eps) :
    ∃ t, (runLoop (mkDeadline start timeout_ms) eid es ea evs).1 = .timedOut t ∧
      outcomeCode (.timedOut t) = some 7 ∧
      toUsec start + (timeout_ms : Int) * 1000 ≤ toUsec t ∧
      toUsec t ≤ toUsec start + (timeout_ms : Int) * 1000 + eps := by
  obtain ⟨t, h1, h2, h3⟩ :=
    runLoop_timeout_bounds (mkDeadline start timeout_ms) eid es ea eps
      (tvValid_mkDeadline start timeout_ms hstart) heps evs
      hvalid hnomatch hnoerr hexit hbound
  have hmd := toUsec_mkDeadline start timeout_ms
  exact ⟨t, h1, rfl, by omega, by omega⟩

/-- Witness for C2 on a one-event run whose `select` times out. -/
theorem timeout_terminates_after_deadline_witness :
    ∃ t, (runLoop (mkDeadline ⟨0, 0⟩ 5) 0 0 0
        [(⟨⟨0, 1000⟩, ⟨0, 0⟩⟩, SelectRes.timeout)]).1 = .timedOut t ∧
      outcomeCode (.timedOut t) = some 7 ∧
      toUsec ⟨0, 0⟩ + (5 : Int) * 1000 ≤ toUsec t ∧
      toUsec t ≤ toUsec ⟨0, 0⟩ + (5 : Int) * 1000 + 5000 := by
  refine timeout_terminates_after_deadline ⟨0, 0⟩ 5 0 0 0
    [(⟨⟨0, 1000⟩, ⟨0, 0⟩⟩, SelectRes.timeout)] 5000 (by decide) (by decide)
    ?_ ?_ ?_ ?_ ?_
  · intro ev hev
    simp only [List.mem_singleton] at hev
    subst hev
    decide
  · intro ev hev bs src hready
    simp only [List.mem_singleton] at hev
    subst hev
    simp at hready
  · intro ev hev
    simp only [List.mem_singleton] at hev
    subst hev
    exact ⟨by decide, by decide⟩
  · exact ⟨(⟨⟨0, 1000⟩, ⟨0, 0⟩⟩, SelectRes.timeout), by simp, Or.inr rfl⟩
  · intro ev hev
    simp only [List.mem_singleton] at hev
    subst hev
    decide

/-- C3: the deadline is the one fixed value `start + timeout_ms`; every
wait armed across the loop — in particular after any number of discarded
datagrams — satisfies `now + armed = start + timeout_ms`, so the total
wait never exceeds the original timeout and is never recomputed from a
fresh `now + timeout`. -/
theorem deadline_fixed_rearm (start : Timeval) (timeout_ms : Nat)
    (eid es ea : Nat) (evs : List (Event × SelectRes))
    (hstart : tvValid start)
    (hvalid : ∀ ev ∈ evs, tvValid ev.1.now) :
    ∀ p ∈ armedWaits (mkDeadline start timeout_ms) eid es ea evs,
      toUsec p.1 + toUsec p.2 = toUsec start + (timeout_ms : Int) * 1000 := by
  intro p hp
  have h := armedWaits_fixed (mkDeadline start timeout_ms) eid es ea
    (tvValid_mkDeadline start timeout_ms hstart) evs hvalid p hp
  rw [toUsec_mkDeadline] at h
  exact h

/-- Witness for C3: the one wait armed on a concrete run ends exactly at
`start + timeout`. -/
theorem deadline_fixed_rearm_witness :
    toUsec ⟨0, 1000⟩ + toUsec ⟨0, 4000⟩ = toUsec ⟨0, 0⟩ + (5 : Int) * 1000 :=
  deadline_fixed_rearm ⟨0, 0⟩ 5 0 0 0
    [(⟨⟨0, 1000⟩, ⟨0, 0⟩⟩, SelectRes.timeout)] (by decide)
    (by
      intro ev hev
      simp only [List.mem_singleton] at hev
      subst hev
      decide)
    (⟨0, 1000⟩, ⟨0, 4000⟩) (by decide)

/-- C9: on every terminal path reached after socket creation — connect
failure, send failure, wait failure, receive failure, timeout (both the
pre-wait expired exit and the zero-result wait exit), and successful
match — the socket is closed exactly once. -/
theorem socket_closed_once (connectOk sendOk : Bool) (dl : Timeval)
    (eid es ea : Nat) (evs : List (Event × SelectRes))
    (h : (session connectOk sendOk dl eid es ea evs).1 ≠ .incomplete) :
    (session connectOk sendOk dl eid es ea evs).2 = 1 := by
  have key := runLoop_close_count dl eid es ea evs
  unfold session at h ⊢
  cases connectOk
  · simp
  · cases sendOk
    · simp
    · simp only [Bool.not_true, Bool.false_eq_true, if_false, reduceIte] at h ⊢
      rcases hr : runLoop dl eid es ea evs with ⟨o, n⟩
      cases o <;> simp_all

/-- Witness for C9 on a timeout path. -/
theorem socket_closed_once_witness :
    (session true true ⟨0, 5000⟩ 0 0 0
      [(⟨⟨0, 1000⟩, ⟨0, 0⟩⟩, SelectRes.timeout)]).1 ≠ .incomplete ∧
    (session true true ⟨0, 5000⟩ 0 0 0
      [(⟨⟨0, 1000⟩, ⟨0, 0⟩⟩, SelectRes.timeout)]).2 = 1 :=
  ⟨by decide, socket_closed_once true true ⟨0, 5000⟩ 0 0 0 _ (by decide)⟩

end PingHelper
